import Mathlib

/-!
Shallow embedding of the `fix` crate (src/lib.rs): fixed-point numbers
`Fix<Bits, Base, Exp>` whose runtime state is a single integer magnitude
`bits`, with the scale `Base^Exp` tracked at the type level.

Modelling choices:
- Machine integer types (u8 .. i128) are modelled by `IntTy` (signedness and
  bit width); a magnitude is an unbounded `Int`, and range membership
  `IntTy.inRange` captures representability.  The unchecked operations act on
  the mathematical integers, as the source delegates overflow behaviour to the
  primitive; the checked operations test representability explicitly, exactly
  as Rust's `checked_add` / `checked_sub` / `checked_mul` / `checked_div` do.
- Rust's integer division and remainder truncate toward zero, so they are
  rendered as `Int.tdiv` and `Int.tmod`.
- The type-level parameters `Base : Nat` (typenum `Unsigned`) and
  `Exp : Int` (typenum `Integer`) become ordinary Lean index parameters of the
  `Fix` structure.
-/

namespace FixCrate

/-- A Rust primitive integer type: signedness plus bit width. -/
structure IntTy where
  signed : Bool
  width : Nat
deriving DecidableEq

/-- Smallest representable value of the primitive type. -/
def IntTy.minVal (t : IntTy) : Int :=
  if t.signed then -(2 ^ (t.width - 1)) else 0

/-- Largest representable value of the primitive type. -/
def IntTy.maxVal (t : IntTy) : Int :=
  if t.signed then 2 ^ (t.width - 1) - 1 else 2 ^ t.width - 1

/-- Representability of an integer in the primitive type. -/
def IntTy.inRange (t : IntTy) (x : Int) : Prop :=
  t.minVal ≤ x ∧ x ≤ t.maxVal

instance (t : IntTy) (x : Int) : Decidable (t.inRange x) := by
  unfold IntTy.inRange; infer_instance

/-- The u8 primitive type. -/
def u8 : IntTy := ⟨false, 8⟩

/-- The u16 primitive type. -/
def u16 : IntTy := ⟨false, 16⟩

/-- The u64 primitive type. -/
def u64 : IntTy := ⟨false, 64⟩

/-- Rust `checked_add` on a primitive integer type: the sum when it is
representable, `none` on overflow or underflow. -/
def IntTy.checked_add (t : IntTy) (x y : Int) : Option Int :=
  if t.inRange (x + y) then some (x + y) else none

/-- Rust `checked_sub` on a primitive integer type. -/
def IntTy.checked_sub (t : IntTy) (x y : Int) : Option Int :=
  if t.inRange (x - y) then some (x - y) else none

/-- Rust `checked_mul` on a primitive integer type. -/
def IntTy.checked_mul (t : IntTy) (x y : Int) : Option Int :=
  if t.inRange (x * y) then some (x * y) else none

/-- Rust `checked_div` on a primitive integer type: `none` on division by
zero or when the truncated quotient is not representable (MIN / -1). -/
def IntTy.checked_div (t : IntTy) (x y : Int) : Option Int :=
  if y = 0 then none
  else if t.inRange (x.tdiv y) then some (x.tdiv y) else none

/-- The `Fix<Bits, Base, Exp>` struct of src/lib.rs: the sole runtime field is
the magnitude `bits`; `Base` and `Exp` are type-level. `t` records the Rust
primitive type of `Bits`. -/
structure Fix (t : IntTy) (Base : Nat) (Exp : Int) where
  bits : Int
deriving DecidableEq

/-- `Fix::new` — wraps a magnitude, no validation. -/
def Fix.new (t : IntTy) (Base : Nat) (Exp : Int) (bits : Int) : Fix t Base Exp :=
  ⟨bits⟩

/-- `Fix::convert::<ToExp>` (src/lib.rs lines 151-172): `diff = |Exp - ToExp|`,
`inverse = (Exp - ToExp) < 0`, `ratio = Base^diff`; divide by `ratio` when
`inverse`, otherwise multiply. -/
def Fix.convert {t : IntTy} {Base : Nat} {Exp : Int} (ToExp : Int)
    (a : Fix t Base Exp) : Fix t Base ToExp :=
  let ratio : Int := (Base : Int) ^ (Exp - ToExp).natAbs
  if Exp - ToExp < 0 then ⟨a.bits.tdiv ratio⟩ else ⟨a.bits * ratio⟩

/-- `Fix::map_bits` (src/lib.rs lines 186-191): applies `f` to the magnitude,
changing the primitive type, preserving base and exponent. -/
def Fix.map_bits {t : IntTy} {Base : Nat} {Exp : Int} (u : IntTy)
    (f : Int → Int) (a : Fix t Base Exp) : Fix u Base Exp :=
  ⟨f a.bits⟩

/-- `impl Ord for Fix`: comparison of the magnitudes. -/
def Fix.cmp {t : IntTy} {Base : Nat} {Exp : Int}
    (a b : Fix t Base Exp) : Ordering :=
  compare a.bits b.bits

/-- `impl Hash for Fix`: hashing feeds only the magnitude to the hasher,
modelled as applying the hasher state transition `h` to `bits`. -/
def Fix.hashWith {t : IntTy} {Base : Nat} {Exp : Int}
    (h : Int → Nat) (a : Fix t Base Exp) : Nat :=
  h a.bits

/-- `impl Neg for Fix`. -/
def Fix.neg {t : IntTy} {Base : Nat} {Exp : Int}
    (a : Fix t Base Exp) : Fix t Base Exp :=
  ⟨-a.bits⟩

/-- `impl Add for Fix`: same base and exponent, magnitudes added. -/
def Fix.add {t : IntTy} {Base : Nat} {Exp : Int}
    (a b : Fix t Base Exp) : Fix t Base Exp :=
  ⟨a.bits + b.bits⟩

/-- `impl Sub for Fix`. -/
def Fix.sub {t : IntTy} {Base : Nat} {Exp : Int}
    (a b : Fix t Base Exp) : Fix t Base Exp :=
  ⟨a.bits - b.bits⟩

/-- `impl Mul<Fix<Bits, Base, RExp>> for Fix<Bits, Base, LExp>`
(src/lib.rs lines 468-477): exponents add. -/
def Fix.mul {t : IntTy} {Base : Nat} {LExp RExp : Int}
    (a : Fix t Base LExp) (b : Fix t Base RExp) : Fix t Base (LExp + RExp) :=
  ⟨a.bits * b.bits⟩

/-- `impl Div<Fix<Bits, Base, RExp>> for Fix<Bits, Base, LExp>`
(src/lib.rs lines 479-488): exponents subtract, quotient truncates. -/
def Fix.div {t : IntTy} {Base : Nat} {LExp RExp : Int}
    (a : Fix t Base LExp) (b : Fix t Base RExp) : Fix t Base (LExp - RExp) :=
  ⟨a.bits.tdiv b.bits⟩

/-- `impl Rem for Fix`: same exponent on both sides. -/
def Fix.rem {t : IntTy} {Base : Nat} {Exp : Int}
    (a b : Fix t Base Exp) : Fix t Base Exp :=
  ⟨a.bits.tmod b.bits⟩

/-- `impl Mul<Bits> for Fix`: scalar multiply by a raw magnitude. -/
def Fix.mul_bits {t : IntTy} {Base : Nat} {Exp : Int}
    (a : Fix t Base Exp) (s : Int) : Fix t Base Exp :=
  ⟨a.bits * s⟩

/-- `impl Div<Bits> for Fix`: scalar divide by a raw magnitude. -/
def Fix.div_bits {t : IntTy} {Base : Nat} {Exp : Int}
    (a : Fix t Base Exp) (s : Int) : Fix t Base Exp :=
  ⟨a.bits.tdiv s⟩

/-- `impl Rem<Bits> for Fix`: scalar remainder by a raw magnitude. -/
def Fix.rem_bits {t : IntTy} {Base : Nat} {Exp : Int}
    (a : Fix t Base Exp) (s : Int) : Fix t Base Exp :=
  ⟨a.bits.tmod s⟩

/-- `impl AddAssign for Fix`: `self.bits += rhs.bits`, returning the updated
left operand. -/
def Fix.add_assign {t : IntTy} {Base : Nat} {Exp : Int}
    (a b : Fix t Base Exp) : Fix t Base Exp :=
  { a with bits := a.bits + b.bits }

/-- `impl SubAssign for Fix`. -/
def Fix.sub_assign {t : IntTy} {Base : Nat} {Exp : Int}
    (a b : Fix t Base Exp) : Fix t Base Exp :=
  { a with bits := a.bits - b.bits }

/-- `impl MulAssign<Bits> for Fix`. -/
def Fix.mul_assign {t : IntTy} {Base : Nat} {Exp : Int}
    (a : Fix t Base Exp) (s : Int) : Fix t Base Exp :=
  { a with bits := a.bits * s }

/-- `impl DivAssign<Bits> for Fix`. -/
def Fix.div_assign {t : IntTy} {Base : Nat} {Exp : Int}
    (a : Fix t Base Exp) (s : Int) : Fix t Base Exp :=
  { a with bits := a.bits.tdiv s }

/-- `impl RemAssign<Fix<Bits, Base, RExp>> for Fix<Bits, Base, LExp>`
(src/lib.rs lines 566-573): the right operand may have ANY exponent; only its
raw magnitude is used, and the left operand keeps base and exponent. -/
def Fix.rem_assign {t : IntTy} {Base : Nat} {LExp RExp : Int}
    (a : Fix t Base LExp) (b : Fix t Base RExp) : Fix t Base LExp :=
  { a with bits := a.bits.tmod b.bits }

/-- `impl RemAssign<Bits> for Fix`. -/
def Fix.rem_assign_bits {t : IntTy} {Base : Nat} {Exp : Int}
    (a : Fix t Base Exp) (s : Int) : Fix t Base Exp :=
  { a with bits := a.bits.tmod s }

/-- `impl CheckedAdd for Fix` (src/lib.rs lines 586-593):
`self.bits.checked_add(&v.bits).map(Self::new)`. -/
def Fix.checked_add {t : IntTy} {Base : Nat} {Exp : Int}
    (a b : Fix t Base Exp) : Option (Fix t Base Exp) :=
  (t.checked_add a.bits b.bits).map (Fix.new t Base Exp)

/-- `impl CheckedSub for Fix` (src/lib.rs lines 595-602). -/
def Fix.checked_sub {t : IntTy} {Base : Nat} {Exp : Int}
    (a b : Fix t Base Exp) : Option (Fix t Base Exp) :=
  (t.checked_sub a.bits b.bits).map (Fix.new t Base Exp)

/-- `impl CheckedMulFix for Fix` (src/lib.rs lines 610-621): result exponent
is the sum. -/
def Fix.checked_mul {t : IntTy} {Base : Nat} {LExp RExp : Int}
    (a : Fix t Base LExp) (b : Fix t Base RExp) :
    Option (Fix t Base (LExp + RExp)) :=
  (t.checked_mul a.bits b.bits).map (Fix.new t Base (LExp + RExp))

/-- `impl CheckedDivFix for Fix` (src/lib.rs lines 627-636): result exponent
is the difference. -/
def Fix.checked_div {t : IntTy} {Base : Nat} {LExp RExp : Int}
    (a : Fix t Base LExp) (b : Fix t Base RExp) :
    Option (Fix t Base (LExp - RExp)) :=
  (t.checked_div a.bits b.bits).map (Fix.new t Base (LExp - RExp))

/-- State-passing rendering of the method call `a.checked_add(&b)`: the pair
of operand states goes in; the call reads `self.bits` and `v.bits` through
shared references, builds a fresh value for the result, and never writes
through either reference, so the outgoing operand states are rebuilt from
exactly the fields that were read. -/
def Fix.checked_add_call {t : IntTy} {Base : Nat} {Exp : Int}
    (s : Fix t Base Exp × Fix t Base Exp) :
    (Fix t Base Exp × Fix t Base Exp) × Option (Fix t Base Exp) :=
  ((⟨s.1.bits⟩, ⟨s.2.bits⟩),
    (t.checked_add s.1.bits s.2.bits).map (Fix.new t Base Exp))

/-- State-passing rendering of `a.checked_sub(&b)`. -/
def Fix.checked_sub_call {t : IntTy} {Base : Nat} {Exp : Int}
    (s : Fix t Base Exp × Fix t Base Exp) :
    (Fix t Base Exp × Fix t Base Exp) × Option (Fix t Base Exp) :=
  ((⟨s.1.bits⟩, ⟨s.2.bits⟩),
    (t.checked_sub s.1.bits s.2.bits).map (Fix.new t Base Exp))

/-- State-passing rendering of `a.checked_mul(&b)` across exponents. -/
def Fix.checked_mul_call {t : IntTy} {Base : Nat} {LExp RExp : Int}
    (s : Fix t Base LExp × Fix t Base RExp) :
    (Fix t Base LExp × Fix t Base RExp) × Option (Fix t Base (LExp + RExp)) :=
  ((⟨s.1.bits⟩, ⟨s.2.bits⟩),
    (t.checked_mul s.1.bits s.2.bits).map (Fix.new t Base (LExp + RExp)))

/-- State-passing rendering of `a.checked_div(&b)` across exponents. -/
def Fix.checked_div_call {t : IntTy} {Base : Nat} {LExp RExp : Int}
    (s : Fix t Base LExp × Fix t Base RExp) :
    (Fix t Base LExp × Fix t Base RExp) × Option (Fix t Base (LExp - RExp)) :=
  ((⟨s.1.bits⟩, ⟨s.2.bits⟩),
    (t.checked_div s.1.bits s.2.bits).map (Fix.new t Base (LExp - RExp)))

/-- Positivity of the conversion ratio for a positive base. -/
theorem ratio_pos {Base : Nat} (hB : 0 < Base) (k : Nat) :
    (0 : Int) < (Base : Int) ^ k :=
  pow_pos (by exact_mod_cast hB) k

/-- C1: `convert` to `ToExp` keeps the base and computes the magnitude as:
with `ratio = Base ^ |Exp - ToExp|`, truncated division of the magnitude by
`ratio` when `Exp ≤ ToExp`, multiplication by `ratio` otherwise; in
particular converting to the same exponent leaves the value unchanged
(`ratio = Base ^ 0 = 1`). -/
theorem claim_C1_convert {t : IntTy} {Base : Nat} {Exp : Int} (ToExp : Int)
    (a : Fix t Base Exp) :
    ((a.convert ToExp).bits =
      if Exp ≤ ToExp
        then a.bits.tdiv ((Base : Int) ^ (Exp - ToExp).natAbs)
        else a.bits * (Base : Int) ^ (Exp - ToExp).natAbs) ∧
    (Base : Int) ^ (Exp - Exp).natAbs = 1 ∧
    a.convert Exp = a := by
  refine ⟨?_, by simp, ?_⟩
  · rcases lt_trichotomy Exp ToExp with h | h | h
    · rw [Fix.convert, if_pos (by omega), if_pos (le_of_lt h)]
    · subst h
      rw [Fix.convert, if_neg (by omega), if_pos le_rfl]
      simp
    · rw [Fix.convert, if_neg (by omega), if_neg (by omega)]
  · rw [Fix.convert, if_neg (by omega)]
    simp

/-- C2: converting to a strictly finer exponent and back is the identity
(the refining multiplication is exact, hence cancelled by the truncated
division on the way back); stated for a positive base, which every scale of
the crate has. -/
theorem claim_C2_roundtrip {t : IntTy} {Base : Nat} {E1 E2 : Int}
    (hB : 0 < Base) (hE : E2 < E1) (a : Fix t Base E1) :
    (a.convert E2).convert E1 = a := by
  have hr : ((Base : Int) ^ (E1 - E2).natAbs) ≠ 0 :=
    ne_of_gt (ratio_pos hB _)
  have habs : (E2 - E1).natAbs = (E1 - E2).natAbs := by
    rw [show E2 - E1 = -(E1 - E2) by ring, Int.natAbs_neg]
  simp only [Fix.convert]
  rw [if_neg (show ¬ E1 - E2 < 0 by omega),
    if_pos (show E2 - E1 < 0 by omega)]
  simp only [habs, Int.mul_tdiv_cancel _ hr]

/-- Closed-form witness for C2: a base-10 magnitude-15 value at exponent 3
converts down to exponent -3 and back to itself. -/
theorem claim_C2_roundtrip_witness :
    0 < 10 ∧ (-3 : Int) < 3 ∧
      ((Fix.new u64 10 3 15).convert (-3)).convert 3 = Fix.new u64 10 3 15 :=
  ⟨by decide, by decide, claim_C2_roundtrip (by decide) (by decide) _⟩

/-- C3: value-by-value multiplication multiplies magnitudes at the summed
exponent, division takes the truncated quotient of magnitudes at the
subtracted exponent; concretely 2 at exponent 3 times 3 at exponent -3 has
magnitude 6 at exponent 3 + (-3) = 0, and 6 at exponent 3 divided by 2 at
exponent 3 has magnitude 3 at exponent 3 - 3 = 0. -/
theorem claim_C3_mul_div {t : IntTy} {Base : Nat} {E1 E2 : Int}
    (a : Fix t Base E1) (b : Fix t Base E2) :
    (a.mul b).bits = a.bits * b.bits ∧
    (a.div b).bits = a.bits.tdiv b.bits ∧
    (Fix.mul (Fix.new u64 10 3 2) (Fix.new u64 10 (-3) 3)).bits = 6 ∧
    ((3 : Int) + (-3) = 0) ∧
    (Fix.div (Fix.new u64 10 3 6) (Fix.new u64 10 3 2)).bits = 3 ∧
    ((3 : Int) - 3 = 0) :=
  ⟨rfl, rfl, by decide, by decide, by decide, by decide⟩

/-- C4: checked add and checked sub are typed for identical base and
exponent; each returns `none` exactly when the integer sum (difference) is
not representable in the magnitude type, and otherwise the sum (difference)
at the unchanged scale; concretely 255 + 1 on u8 magnitudes is `none` and
40 + 2 is `some 42`. -/
theorem claim_C4_checked_add_sub {t : IntTy} {Base : Nat} {Exp : Int}
    (a b : Fix t Base Exp) :
    (a.checked_add b =
      if t.inRange (a.bits + b.bits)
        then some (Fix.new t Base Exp (a.bits + b.bits)) else none) ∧
    (a.checked_sub b =
      if t.inRange (a.bits - b.bits)
        then some (Fix.new t Base Exp (a.bits - b.bits)) else none) ∧
    Fix.checked_add (Fix.new u8 10 3 255) (Fix.new u8 10 3 1) = none ∧
    Fix.checked_add (Fix.new u8 10 3 40) (Fix.new u8 10 3 2)
      = some (Fix.new u8 10 3 42) := by
  refine ⟨?_, ?_, by decide, by decide⟩
  · by_cases h : t.inRange (a.bits + b.bits) <;>
      simp [Fix.checked_add, IntTy.checked_add, h, Fix.new]
  · by_cases h : t.inRange (a.bits - b.bits) <;>
      simp [Fix.checked_sub, IntTy.checked_sub, h, Fix.new]

/-- C5: checked divide produces a value at the subtracted exponent; it is
`none` exactly when the divisor magnitude is zero or the truncated quotient
is not representable, and otherwise the truncated quotient; concretely
0 / 0 is `none` and 100 / 5 at equal exponents is `some 20` at exponent
3 - 3 = 0. -/
theorem claim_C5_checked_div {t : IntTy} {Base : Nat} {E1 E2 : Int}
    (a : Fix t Base E1) (b : Fix t Base E2) :
    (a.checked_div b =
      if b.bits = 0 then none
      else if t.inRange (a.bits.tdiv b.bits)
        then some (Fix.new t Base (E1 - E2) (a.bits.tdiv b.bits)) else none) ∧
    (a.checked_div b = none ↔
      b.bits = 0 ∨ ¬ t.inRange (a.bits.tdiv b.bits)) ∧
    Fix.checked_div (Fix.new u8 10 0 0) (Fix.new u8 10 0 0) = none ∧
    Fix.checked_div (Fix.new u8 10 3 100) (Fix.new u8 10 3 5)
      = some (Fix.new u8 10 (3 - 3) 20) ∧
    ((3 : Int) - 3 = 0) := by
  have hmain : a.checked_div b =
      if b.bits = 0 then none
      else if t.inRange (a.bits.tdiv b.bits)
        then some (Fix.new t Base (E1 - E2) (a.bits.tdiv b.bits)) else none := by
    by_cases h0 : b.bits = 0
    · simp [Fix.checked_div, IntTy.checked_div, h0]
    · by_cases hr : t.inRange (a.bits.tdiv b.bits) <;>
        simp [Fix.checked_div, IntTy.checked_div, h0, hr]
  refine ⟨hmain, ?_, by decide, by decide, by decide⟩
  rw [hmain]
  by_cases h0 : b.bits = 0
  · simp [h0]
  · by_cases hr : t.inRange (a.bits.tdiv b.bits) <;> simp [h0, hr]

/-- C6: the in-place remainder by a value of any right-hand exponent
replaces the left magnitude by `lhs.bits % rhs.bits` on the raw magnitudes,
keeps the left operand's base and exponent, and depends on the right operand
only through its raw magnitude (replacing the right operand's exponent by
any other leaves the result unchanged). -/
theorem claim_C6_rem_assign {t : IntTy} {Base : Nat} {LExp RExp REx2 : Int}
    (a : Fix t Base LExp) (b : Fix t Base RExp) :
    a.rem_assign b = Fix.new t Base LExp (a.bits.tmod b.bits) ∧
    a.rem_assign b = a.rem_assign (Fix.new t Base REx2 b.bits) :=
  ⟨rfl, rfl⟩

/-- C7: for identical base and exponent, equality of values is exactly
equality of magnitudes, the comparison verdict is exactly the comparison of
magnitudes, and the hash depends on nothing but the magnitude. -/
theorem claim_C7_eq_ord {t : IntTy} {Base : Nat} {Exp : Int}
    (a b : Fix t Base Exp) (h : Int → Nat) :
    (a = b ↔ a.bits = b.bits) ∧
    (Fix.cmp a b = Ordering.lt ↔ a.bits < b.bits) ∧
    (Fix.cmp a b = Ordering.eq ↔ a.bits = b.bits) ∧
    (Fix.cmp a b = Ordering.gt ↔ b.bits < a.bits) ∧
    Fix.hashWith h a = h a.bits := by
  refine ⟨⟨fun hab => by rw [hab], fun hab => ?_⟩, ?_, ?_, ?_, rfl⟩
  · cases a; cases b; simpa using hab
  · exact compare_lt_iff_lt
  · exact compare_eq_iff_eq
  · exact compare_gt_iff_gt

/-- C8: every compound operator agrees with its non-assign counterpart:
`+=`, `-=`, and same-scale `%=` with value addition, subtraction and
remainder, and the scalar `*=`, `/=`, `%=` with scalar multiply, divide and
remainder. -/
theorem claim_C8_assign_mirror {t : IntTy} {Base : Nat} {Exp : Int}
    (a b : Fix t Base Exp) (s : Int) :
    a.add_assign b = a.add b ∧
    a.sub_assign b = a.sub b ∧
    a.rem_assign b = a.rem b ∧
    a.mul_assign s = a.mul_bits s ∧
    a.div_assign s = a.div_bits s ∧
    a.rem_assign_bits s = a.rem_bits s :=
  ⟨rfl, rfl, rfl, rfl, rfl, rfl⟩

/-- C9: `map_bits f` yields exactly `f` of the original magnitude at
unchanged base and exponent, with no added bounds check; concretely the u8
wrap of 1699 is 163, while 1000 mapped into a 16-bit range is unchanged. -/
theorem claim_C9_map_bits {t u : IntTy} {Base : Nat} {Exp : Int}
    (f : Int → Int) (a : Fix t Base Exp) :
    (a.map_bits u f).bits = f a.bits ∧
    (Fix.map_bits u8 (fun x => x.emod 256) (Fix.new u64 10 (-3) 1699)).bits
      = 163 ∧
    (Fix.map_bits u16 (fun x => x.emod 65536) (Fix.new u64 10 (-3) 1000)).bits
      = 1000 :=
  ⟨rfl, by decide, by decide⟩

/-- C10: every checked operation, rendered as a state-passing method call on
its pair of operands, leaves both operand states unchanged — whether the
optional result is present or absent — and returns exactly the pure checked
result. -/
theorem claim_C10_checked_atomic {t : IntTy} {Base : Nat} {E1 E2 : Int}
    (p : Fix t Base E1 × Fix t Base E1) (q : Fix t Base E1 × Fix t Base E2) :
    (Fix.checked_add_call p).1 = p ∧
    (Fix.checked_add_call p).2 = p.1.checked_add p.2 ∧
    (Fix.checked_sub_call p).1 = p ∧
    (Fix.checked_sub_call p).2 = p.1.checked_sub p.2 ∧
    (Fix.checked_mul_call q).1 = q ∧
    (Fix.checked_mul_call q).2 = q.1.checked_mul q.2 ∧
    (Fix.checked_div_call q).1 = q ∧
    (Fix.checked_div_call q).2 = q.1.checked_div q.2 :=
  ⟨rfl, rfl, rfl, rfl, rfl, rfl, rfl, rfl⟩

end FixCrate
